import Mathlib

/-!
Verification of the greedy PPFD allocator and the model-output scoring code of
the thesis repository.

The allocator is embedded from the per-day loop of
`src/archive/calculate_ppfd_allocation.py` (function `calculate_ppfd_allocation`,
lines 41-77): for one day the rows are sorted by `(RANK eur/ppfd, hour)`, a
`remaining_needed` amount starts at the daily requirement, each hour receives
`capacity` when `remaining > capacity` else `remaining` (0 once remaining is no
longer positive), and after each subtraction `remaining` is set to exactly 0
when it is strictly below `1e-9`.

Floats are modelled as exact rationals; float `inf` is modelled as `none` in an
`Option ℚ` field.  Python `float('nan')` cells of the input table are modelled
as `none` in `Option ℚ` columns.
-/

namespace Thesis

/-- An hour of the day, 0-23.  A day always carries exactly 24 of them. -/
abbrev Hour := Fin 24

/-- One day of normalized input: per-hour electricity-cost rank, per-hour
capacity, and the daily PPFD target. -/
structure Day where
  cost_rank : Hour → ℤ
  capacity : Hour → ℚ
  daily_target : ℚ

/-- The float-noise threshold `1e-9` used by the allocator
(`if remaining_needed < 1e-9: remaining_needed = 0`). -/
def tol : ℚ := 1 / 1000000000

/-- A valid day in the sense of the spec data model: non-negative daily target,
positive integer ranks and non-negative capacities. -/
def ValidDay (d : Day) : Prop :=
  0 ≤ d.daily_target ∧ ∀ h : Hour, 0 < d.cost_rank h ∧ 0 ≤ d.capacity h

/-- The comparison used by `sort_values(by=['RANK eur/ppfd', 'hour'])`:
ascending by rank, ties broken by ascending hour index. -/
def hourLe (d : Day) (a b : Hour) : Prop :=
  d.cost_rank a < d.cost_rank b ∨ (d.cost_rank a = d.cost_rank b ∧ (a : ℕ) ≤ (b : ℕ))

instance (d : Day) : DecidableRel (hourLe d) := fun a b => by
  unfold hourLe; infer_instance

instance (d : Day) : IsTotal Hour (hourLe d) where
  total a b := by
    rcases lt_trichotomy (d.cost_rank a) (d.cost_rank b) with h | h | h
    · exact Or.inl (Or.inl h)
    · rcases Nat.le_total (a : ℕ) (b : ℕ) with h' | h'
      · exact Or.inl (Or.inr ⟨h, h'⟩)
      · exact Or.inr (Or.inr ⟨h.symm, h'⟩)
    · exact Or.inr (Or.inl h)

instance (d : Day) : IsTrans Hour (hourLe d) where
  trans a b c hab hbc := by
    rcases hab with hab | ⟨hab, hab'⟩ <;> rcases hbc with hbc | ⟨hbc, hbc'⟩
    · exact Or.inl (lt_trans hab hbc)
    · exact Or.inl (hbc ▸ hab)
    · exact Or.inl (hab ▸ hbc)
    · exact Or.inr ⟨hab.trans hbc, hab'.trans hbc'⟩

/-- The processing order of the 24 hours of a day: ascending by
`(cost_rank, hour)`.  Since the key pairs are pairwise distinct this is the
unique sorted order, the one produced by the pandas `sort_values` call. -/
def sortedHours (d : Day) : List Hour := (List.finRange 24).insertionSort (hourLe d)

/-- State of the allocation loop: the allocation written so far (every hour is
initialized to `0.0`) and the remaining needed amount. -/
structure AllocState where
  alloc : Hour → ℚ
  remaining : ℚ

/-- Amount assigned to hour `h` in one loop iteration:
`capacity` when `remaining_needed > current_capacity`, else `remaining_needed`,
and `0.0` when `remaining_needed` is not positive. -/
def allocAmt (d : Day) (st : AllocState) (h : Hour) : ℚ :=
  if 0 < st.remaining then
    (if d.capacity h < st.remaining then d.capacity h else st.remaining)
  else 0

/-- One iteration of the allocation loop: write the assigned amount, subtract
it from `remaining_needed`, and clamp `remaining_needed` to exactly `0` when it
is strictly below `1e-9`. -/
def allocStep (d : Day) (st : AllocState) (h : Hour) : AllocState :=
  let a := allocAmt d st h
  let r := st.remaining - a
  ⟨Function.update st.alloc h a, if r < tol then 0 else r⟩

/-- The full day loop of `calculate_ppfd_allocation`. -/
def runAlloc (d : Day) : AllocState :=
  (sortedHours d).foldl (allocStep d) ⟨fun _ => 0, d.daily_target⟩

/-- The ground-truth allocation: the `ppfd_allocated` column for one day. -/
def allocate (d : Day) : Hour → ℚ := (runAlloc d).alloc

/-- The allocation step exactly as the claim words it: assign
`min(remaining, capacity)` and clamp the remaining amount to exactly zero
whenever it falls to `1e-9` or below.  This definition follows the claim
text, not the source; it is the reference point of the refinement claim. -/
def claimStepLe (d : Day) (st : AllocState) (h : Hour) : AllocState :=
  let a := min st.remaining (d.capacity h)
  let r := st.remaining - a
  ⟨Function.update st.alloc h a, if r ≤ tol then 0 else r⟩

/-- The greedy algorithm exactly as the claim words it (clamp at `≤ 1e-9`). -/
def allocateByClaimLe (d : Day) : Hour → ℚ :=
  ((sortedHours d).foldl (claimStepLe d) ⟨fun _ => 0, d.daily_target⟩).alloc

/-- The claim's allocation step with the clamp corrected to the source's
strict comparison: remaining is zeroed only when it falls strictly below
`1e-9`. -/
def claimStepLt (d : Day) (st : AllocState) (h : Hour) : AllocState :=
  let a := min st.remaining (d.capacity h)
  let r := st.remaining - a
  ⟨Function.update st.alloc h a, if r < tol then 0 else r⟩

/-- The greedy algorithm of the claim with the strict (`< 1e-9`) clamp. -/
def allocateByClaimLt (d : Day) : Hour → ℚ :=
  ((sortedHours d).foldl (claimStepLt d) ⟨fun _ => 0, d.daily_target⟩).alloc

/-- `run_optimization` of `src/archive/OLD 2/create_new_training_json.py`
(lines 28-74), the second allocator variant: exact `Decimal` arithmetic,
`min(remaining, capacity)` per hour, hours with `remaining <= 0` skipped, and
no clamping of the remaining amount inside the loop. -/
def optStep (d : Day) (st : AllocState) (h : Hour) : AllocState :=
  if st.remaining ≤ 0 then st
  else
    let can := min st.remaining (d.capacity h)
    if 0 < can then ⟨Function.update st.alloc h (st.alloc h + can), st.remaining - can⟩
    else st

/-- The allocation produced by `run_optimization` (its `allocated_ppfd` dict). -/
def run_optimization (d : Day) : Hour → ℚ :=
  ((sortedHours d).foldl (optStep d) ⟨fun _ => 0, d.daily_target⟩).alloc

/-! ## Basic facts about the processing order -/

theorem sortedHours_perm (d : Day) : (sortedHours d).Perm (List.finRange 24) :=
  List.perm_insertionSort (hourLe d) _

theorem sortedHours_nodup (d : Day) : (sortedHours d).Nodup :=
  ((sortedHours_perm d).symm.nodup (List.nodup_finRange 24))

theorem mem_sortedHours (d : Day) (h : Hour) : h ∈ sortedHours d :=
  (sortedHours_perm d).mem_iff.mpr (List.mem_finRange h)

theorem sortedHours_sorted (d : Day) : (sortedHours d).Sorted (hourLe d) :=
  List.sorted_insertionSort (hourLe d) _

/-- In a list that is pairwise related by `r`, an element `a` that is not
`r`-below `b` from the right comes before `b`. -/
theorem exists_split_of_pairwise {α : Type} {r : α → α → Prop} {l : List α}
    (hp : l.Pairwise r) {a b : α} (ha : a ∈ l) (hb : b ∈ l) (hab : a ≠ b)
    (hnr : ¬ r b a) : ∃ l₁ l₂ l₃, l = l₁ ++ (a :: (l₂ ++ (b :: l₃))) := by
  obtain ⟨s₁, s₂, rfl⟩ := List.append_of_mem ha
  rcases List.mem_append.mp hb with hb₁ | hb₂
  · exfalso
    exact hnr ((List.pairwise_append.mp hp).2.2 b hb₁ a (List.mem_cons_self a s₂))
  · rcases List.mem_cons.mp hb₂ with h | hb₃
    · exact absurd h.symm hab
    · obtain ⟨t₁, t₂, rfl⟩ := List.append_of_mem hb₃
      exact ⟨s₁, t₁, t₂, rfl⟩

/-! ## Step lemmas for the allocator -/

theorem allocStep_alloc_self (d : Day) (st : AllocState) (h : Hour) :
    (allocStep d st h).alloc h = allocAmt d st h := by
  simp [allocStep]

theorem allocStep_alloc_ne (d : Day) (st : AllocState) {h h' : Hour} (hne : h' ≠ h) :
    (allocStep d st h).alloc h' = st.alloc h' := by
  simp [allocStep, Function.update_noteq hne]

theorem allocAmt_le_cap (d : Day) (st : AllocState) (h : Hour)
    (hc : 0 ≤ d.capacity h) : allocAmt d st h ≤ d.capacity h := by
  unfold allocAmt
  split
  · split
    · exact le_refl _
    · rename_i hcap
      exact not_lt.mp hcap
  · exact hc

theorem allocAmt_zero_cap (d : Day) (st : AllocState) (h : Hour)
    (hcap : d.capacity h = 0) : allocAmt d st h = 0 := by
  unfold allocAmt
  split
  · rename_i hrem
    rw [hcap]
    rw [if_pos hrem]
  · rfl

theorem allocAmt_nonneg (d : Day) (st : AllocState) (h : Hour)
    (_hr : 0 ≤ st.remaining) (hc : 0 ≤ d.capacity h) : 0 ≤ allocAmt d st h := by
  unfold allocAmt
  split
  · split
    · exact hc
    · rename_i hrem _
      exact le_of_lt hrem
  · exact le_refl _

theorem allocAmt_le_remaining (d : Day) (st : AllocState) (h : Hour)
    (hr : 0 ≤ st.remaining) : allocAmt d st h ≤ st.remaining := by
  unfold allocAmt
  split
  · split
    · rename_i hcap
      exact le_of_lt hcap
    · exact le_refl _
  · exact hr

theorem allocStep_remaining_nonneg (d : Day) (st : AllocState) (h : Hour)
    (hr : 0 ≤ st.remaining) : 0 ≤ (allocStep d st h).remaining := by
  have ha := allocAmt_le_remaining d st h hr
  simp only [allocStep]
  split
  · exact le_refl _
  · linarith

theorem allocStep_remaining_le (d : Day) (st : AllocState) (h : Hour)
    (hr : 0 ≤ st.remaining) (hc : 0 ≤ d.capacity h) :
    (allocStep d st h).remaining ≤ st.remaining := by
  have ha := allocAmt_nonneg d st h hr hc
  simp only [allocStep]
  split
  · exact hr
  · linarith

theorem allocStep_remaining_pos (d : Day) (st : AllocState) (h : Hour)
    (hpos : 0 < (allocStep d st h).remaining) : allocAmt d st h = d.capacity h := by
  have htol : (0:ℚ) < tol := by norm_num [tol]
  simp only [allocStep] at hpos
  split at hpos
  · exact absurd hpos (lt_irrefl 0)
  · rename_i hclamp
    have hge : tol ≤ st.remaining - allocAmt d st h := le_of_not_lt hclamp
    unfold allocAmt at hge ⊢
    split at hge
    · rename_i h0
      rw [if_pos h0]
      split at hge
      · rename_i h1
        rw [if_pos h1]
      · exfalso
        simp only [sub_self] at hge
        linarith
    · rename_i h0
      exfalso
      rw [sub_zero] at hge
      have h0' := not_lt.mp h0
      linarith

theorem allocAmt_pos_remaining (d : Day) (st : AllocState) (h : Hour)
    (hpos : 0 < allocAmt d st h) : 0 < st.remaining := by
  by_contra hn
  unfold allocAmt at hpos
  rw [if_neg hn] at hpos
  exact lt_irrefl 0 hpos

/-! ## Fold lemmas for the allocator loop -/

theorem foldl_alloc_notMem (d : Day) :
    ∀ (l : List Hour) (st : AllocState) (h : Hour), h ∉ l →
      ((l.foldl (allocStep d) st).alloc h = st.alloc h) := by
  intro l
  induction l with
  | nil => intro st h _; rfl
  | cons a t ih =>
      intro st h hh
      rw [List.foldl_cons]
      rw [ih (allocStep d st a) h (fun hmem => hh (List.mem_cons_of_mem a hmem))]
      exact allocStep_alloc_ne d st (fun he => hh (he ▸ List.mem_cons_self a t))

theorem foldl_remaining_nonneg (d : Day) :
    ∀ (l : List Hour) (st : AllocState), 0 ≤ st.remaining →
      0 ≤ (l.foldl (allocStep d) st).remaining := by
  intro l
  induction l with
  | nil => intro st h; exact h
  | cons a t ih =>
      intro st h
      rw [List.foldl_cons]
      exact ih _ (allocStep_remaining_nonneg d st a h)

theorem foldl_remaining_le (d : Day) :
    ∀ (l : List Hour) (st : AllocState), 0 ≤ st.remaining →
      (∀ h ∈ l, 0 ≤ d.capacity h) →
      (l.foldl (allocStep d) st).remaining ≤ st.remaining := by
  intro l
  induction l with
  | nil => intro st _ _; exact le_refl _
  | cons a t ih =>
      intro st hr hc
      rw [List.foldl_cons]
      have h1 := allocStep_remaining_le d st a hr (hc a (List.mem_cons_self a t))
      have h2 := ih (allocStep d st a) (allocStep_remaining_nonneg d st a hr)
        (fun h hh => hc h (List.mem_cons_of_mem a hh))
      linarith

theorem foldl_alloc_le_cap (d : Day) (h : Hour) (hc : 0 ≤ d.capacity h) :
    ∀ (l : List Hour) (st : AllocState), 0 ≤ st.remaining →
      st.alloc h ≤ d.capacity h →
      (l.foldl (allocStep d) st).alloc h ≤ d.capacity h := by
  intro l
  induction l with
  | nil => intro st _ hle; exact hle
  | cons a t ih =>
      intro st hr hle
      rw [List.foldl_cons]
      refine ih (allocStep d st a) (allocStep_remaining_nonneg d st a hr) ?_
      by_cases he : h = a
      · subst he
        rw [allocStep_alloc_self]
        exact allocAmt_le_cap d st h hc
      · rw [allocStep_alloc_ne d st he]
        exact hle

theorem foldl_alloc_zero_cap (d : Day) (h : Hour) (hcap : d.capacity h = 0) :
    ∀ (l : List Hour) (st : AllocState), st.alloc h = 0 →
      (l.foldl (allocStep d) st).alloc h = 0 := by
  intro l
  induction l with
  | nil => intro st hz; exact hz
  | cons a t ih =>
      intro st hz
      rw [List.foldl_cons]
      refine ih (allocStep d st a) ?_
      by_cases he : h = a
      · subst he
        rw [allocStep_alloc_self]
        exact allocAmt_zero_cap d st h hcap
      · rw [allocStep_alloc_ne d st he]
        exact hz

/-! ## The conservation invariant -/

/-- Total amount written into the allocation so far. -/
def SumAlloc (st : AllocState) : ℚ := ∑ h : Hour, st.alloc h

/-- Invariant of the allocation loop.  `r₀` is the daily target, `C` the total
capacity of the hours processed so far. -/
structure Inv (r₀ C : ℚ) (st : AllocState) : Prop where
  rem_nonneg : 0 ≤ st.remaining
  sum_le_cap : SumAlloc st ≤ C
  pos_full : 0 < st.remaining → SumAlloc st = C
  sum_rem_le : SumAlloc st + st.remaining ≤ r₀
  deficit_lt : r₀ - tol < SumAlloc st + st.remaining
  deficit_rem : SumAlloc st + st.remaining < r₀ → st.remaining = 0

theorem SumAlloc_allocStep (d : Day) (st : AllocState) (h : Hour)
    (hz : st.alloc h = 0) :
    SumAlloc (allocStep d st h) = SumAlloc st + allocAmt d st h := by
  unfold SumAlloc
  have : (allocStep d st h).alloc = Function.update st.alloc h (allocAmt d st h) := rfl
  rw [this]
  rw [← Finset.sum_erase_add _ _ (Finset.mem_univ h),
      ← Finset.sum_erase_add _ st.alloc (Finset.mem_univ h)]
  rw [Function.update_same, hz, add_zero]
  congr 1
  apply Finset.sum_congr rfl
  intro x hx
  exact Function.update_noteq (Finset.ne_of_mem_erase hx) _ _

theorem Inv_allocStep (d : Day) (r₀ C : ℚ) (st : AllocState) (h : Hour)
    (hI : Inv r₀ C st) (hz : st.alloc h = 0) (hc : 0 ≤ d.capacity h) :
    Inv r₀ (C + d.capacity h) (allocStep d st h) := by
  have htol : (0:ℚ) < tol := by norm_num [tol]
  have hsum := SumAlloc_allocStep d st h hz
  have hrem : (allocStep d st h).remaining =
      (if st.remaining - allocAmt d st h < tol then 0 else st.remaining - allocAmt d st h) := rfl
  by_cases h0 : 0 < st.remaining
  · have hfull := hI.pos_full h0
    by_cases h1 : d.capacity h < st.remaining
    · -- the hour is filled to capacity
      have ha : allocAmt d st h = d.capacity h := by
        unfold allocAmt; rw [if_pos h0, if_pos h1]
      by_cases h2 : st.remaining - allocAmt d st h < tol
      · -- remaining clamps to zero, discarding an amount below tol
        have hr' : (allocStep d st h).remaining = 0 := by rw [hrem, if_pos h2]
        have hd0 : SumAlloc st + st.remaining = r₀ := by
          rcases lt_or_eq_of_le hI.sum_rem_le with hlt | heq
          · exact absurd (hI.deficit_rem hlt) (ne_of_gt h0)
          · exact heq
        refine ⟨by rw [hr'], ?_, ?_, ?_, ?_, ?_⟩
        · rw [hsum, ha]; linarith [hI.sum_le_cap]
        · intro hp; rw [hr'] at hp; exact absurd hp (lt_irrefl 0)
        · rw [hsum, hr', ha]; linarith
        · rw [hsum, hr', ha]; linarith
        · intro _; exact hr'
      · -- remaining stays positive
        have hr' : (allocStep d st h).remaining = st.remaining - allocAmt d st h := by
          rw [hrem, if_neg h2]
        have hge : tol ≤ st.remaining - allocAmt d st h := le_of_not_lt h2
        refine ⟨by rw [hr']; linarith, ?_, ?_, ?_, ?_, ?_⟩
        · rw [hsum, ha]; linarith [hI.sum_le_cap]
        · intro _; rw [hsum, ha, hfull]
        · rw [hsum, hr']; linarith [hI.sum_rem_le]
        · rw [hsum, hr']; linarith [hI.deficit_lt]
        · intro hlt
          rw [hsum, hr'] at hlt
          have : SumAlloc st + st.remaining < r₀ := by linarith
          have := hI.deficit_rem this
          linarith
    · -- remaining fits in this hour entirely: allocate it all, remaining hits 0
      have ha : allocAmt d st h = st.remaining := by
        unfold allocAmt; rw [if_pos h0, if_neg h1]
      have h2 : st.remaining - allocAmt d st h < tol := by rw [ha]; simpa using htol
      have hr' : (allocStep d st h).remaining = 0 := by rw [hrem, if_pos h2]
      have hle := not_lt.mp h1
      refine ⟨by rw [hr'], ?_, ?_, ?_, ?_, ?_⟩
      · rw [hsum, ha]; linarith [hI.sum_le_cap, hfull]
      · intro hp; rw [hr'] at hp; exact absurd hp (lt_irrefl 0)
      · rw [hsum, hr', ha]; linarith [hI.sum_rem_le]
      · rw [hsum, hr', ha]; linarith [hI.deficit_lt]
      · intro _; exact hr'
  · -- remaining is zero: nothing is allocated
    have hz0 : st.remaining = 0 := le_antisymm (not_lt.mp h0) hI.rem_nonneg
    have ha : allocAmt d st h = 0 := by unfold allocAmt; rw [if_neg h0]
    have h2 : st.remaining - allocAmt d st h < tol := by rw [ha, hz0]; simpa using htol
    have hr' : (allocStep d st h).remaining = 0 := by rw [hrem, if_pos h2]
    refine ⟨by rw [hr'], ?_, ?_, ?_, ?_, ?_⟩
    · rw [hsum, ha]; linarith [hI.sum_le_cap]
    · intro hp; rw [hr'] at hp; exact absurd hp (lt_irrefl 0)
    · rw [hsum, hr', ha, add_zero, add_zero]
      have := hI.sum_rem_le; rw [hz0, add_zero] at this; exact this
    · rw [hsum, hr', ha, add_zero, add_zero]
      have := hI.deficit_lt; rw [hz0, add_zero] at this; exact this
    · intro _; exact hr'

theorem Inv_foldl (d : Day) (r₀ : ℚ) :
    ∀ (l : List Hour) (C : ℚ) (st : AllocState), l.Nodup →
      (∀ h ∈ l, st.alloc h = 0) → (∀ h ∈ l, 0 ≤ d.capacity h) →
      Inv r₀ C st →
      Inv r₀ (C + (l.map d.capacity).sum) (l.foldl (allocStep d) st) := by
  intro l
  induction l with
  | nil => intro C st _ _ _ hI; simpa using hI
  | cons a t ih =>
      intro C st hnd hz hc hI
      rw [List.foldl_cons, List.map_cons, List.sum_cons, ← add_assoc]
      have hnd' := (List.nodup_cons.mp hnd)
      refine ih (C + d.capacity a) (allocStep d st a) hnd'.2 ?_
        (fun h hh => hc h (List.mem_cons_of_mem a hh))
        (Inv_allocStep d r₀ C st a hI (hz a (List.mem_cons_self a t))
          (hc a (List.mem_cons_self a t)))
      intro h hh
      have hne : h ≠ a := fun he => hnd'.1 (he ▸ hh)
      rw [allocStep_alloc_ne d st hne]
      exact hz h (List.mem_cons_of_mem a hh)

theorem Inv_runAlloc (d : Day) (hv : ValidDay d) :
    Inv d.daily_target (∑ h : Hour, d.capacity h) (runAlloc d) := by
  have htol : (0:ℚ) < tol := by norm_num [tol]
  have hstart : Inv d.daily_target 0 ⟨fun _ => 0, d.daily_target⟩ := by
    refine ⟨hv.1, ?_, ?_, ?_, ?_, ?_⟩
    · simp [SumAlloc]
    · intro _; simp [SumAlloc]
    · simp [SumAlloc]
    · simp only [SumAlloc]
      simp only [Finset.sum_const_zero, zero_add]
      linarith
    · intro hlt
      simp only [SumAlloc, Finset.sum_const_zero, zero_add] at hlt
      exact absurd hlt (lt_irrefl _)
  have := Inv_foldl d d.daily_target (sortedHours d) 0 ⟨fun _ => 0, d.daily_target⟩
    (sortedHours_nodup d) (fun _ _ => rfl) (fun h _ => (hv.2 h).2) hstart
  rw [zero_add] at this
  have hsum : ((sortedHours d).map d.capacity).sum = ∑ h : Hour, d.capacity h := by
    rw [Fin.sum_univ_def]
    exact ((sortedHours_perm d).map d.capacity).sum_eq
  rw [hsum] at this
  exact this

theorem SumAlloc_runAlloc (d : Day) : SumAlloc (runAlloc d) = ∑ h : Hour, allocate d h := rfl

/-! ## The source loop agrees with the claim's algorithm under a strict clamp -/

theorem allocStep_eq_claimStepLt (d : Day) (st : AllocState) (h : Hour)
    (hr : 0 ≤ st.remaining) (hc : 0 ≤ d.capacity h) :
    allocStep d st h = claimStepLt d st h := by
  have ha : allocAmt d st h = min st.remaining (d.capacity h) := by
    unfold allocAmt
    by_cases h0 : 0 < st.remaining
    · rw [if_pos h0]
      by_cases h1 : d.capacity h < st.remaining
      · rw [if_pos h1, min_eq_right (le_of_lt h1)]
      · rw [if_neg h1, min_eq_left (not_lt.mp h1)]
    · rw [if_neg h0]
      have h0' : st.remaining = 0 := le_antisymm (not_lt.mp h0) hr
      rw [h0', min_eq_left hc]
  unfold allocStep claimStepLt
  rw [ha]

theorem foldl_eq_claimLt (d : Day) :
    ∀ (l : List Hour) (st : AllocState), 0 ≤ st.remaining →
      (∀ h ∈ l, 0 ≤ d.capacity h) →
      l.foldl (allocStep d) st = l.foldl (claimStepLt d) st := by
  intro l
  induction l with
  | nil => intro st _ _; rfl
  | cons a t ih =>
      intro st hr hc
      rw [List.foldl_cons, List.foldl_cons]
      rw [← allocStep_eq_claimStepLt d st a hr (hc a (List.mem_cons_self a t))]
      exact ih (allocStep d st a) (allocStep_remaining_nonneg d st a hr)
        (fun h hh => hc h (List.mem_cons_of_mem a hh))

/-! ## Claim theorems about the allocator -/

/-- C1 (amended): for every valid Day the Allocator computes the ground truth
by the greedy algorithm that processes hours ascending by `(cost_rank, hour)`,
assigns each hour `min(remaining, capacity)`, subtracts, and clamps the
remaining amount to exactly zero whenever it falls strictly below `1e-9`
(at exactly `1e-9` it is not clamped); all 24 hours get an explicit value. -/
theorem allocator_greedy_strict_clamp (d : Day) (hv : ValidDay d) :
    allocate d = allocateByClaimLt d := by
  unfold allocate allocateByClaimLt runAlloc
  rw [foldl_eq_claimLt d (sortedHours d) _ hv.1 (fun h _ => (hv.2 h).2)]

/-- The day refuting the clamp-at-`1e-9`-or-below reading of C1: target
`1 + 1e-9`, two unit-capacity cheap hours.  After hour 0 the remaining amount
is exactly `1e-9`; the code does not clamp it and hands it to hour 1. -/
def dayC1 : Day where
  cost_rank h := if h.val = 0 then 1 else if h.val = 1 then 2 else 99
  capacity h := if h.val = 0 then 1 else if h.val = 1 then 1 else 0
  daily_target := 1 + tol

theorem dayC1_valid : ValidDay dayC1 := by
  refine ⟨by norm_num [dayC1, tol], fun h => ⟨?_, ?_⟩⟩ <;> fin_cases h <;> norm_num [dayC1]

theorem sortedHours_dayC1 : sortedHours dayC1 =
    [0, 1, 2, 3, 4, 5, 6, 7, 8, 9, 10, 11, 12, 13, 14, 15, 16, 17, 18, 19, 20, 21, 22, 23] := by
  decide

set_option maxHeartbeats 2000000 in
/-- C1 counterexample: on the valid day `dayC1` the code allocates `1e-9` to
hour 1 (both allocator variants do), while the claim's algorithm, which clamps
a remaining amount of exactly `1e-9` to zero, allocates hour 1 nothing.  So the
Allocator does not implement the claim's algorithm as stated. -/
theorem allocator_clamp_boundary_counterexample :
    ValidDay dayC1
      ∧ allocate dayC1 1 = tol
      ∧ run_optimization dayC1 1 = tol
      ∧ allocateByClaimLe dayC1 1 = 0
      ∧ allocate dayC1 1 ≠ allocateByClaimLe dayC1 1 := by
  have h1 : allocate dayC1 1 = tol := by
    simp only [allocate, runAlloc, sortedHours_dayC1, List.foldl]
    norm_num [allocStep, allocAmt, dayC1, tol, Function.update_apply, Fin.ext_iff]
  have h2 : run_optimization dayC1 1 = tol := by
    simp only [run_optimization, sortedHours_dayC1, List.foldl]
    norm_num [optStep, dayC1, tol, Function.update_apply, Fin.ext_iff]
  have h3 : allocateByClaimLe dayC1 1 = 0 := by
    simp only [allocateByClaimLe, sortedHours_dayC1, List.foldl]
    norm_num [claimStepLe, dayC1, tol, Function.update_apply, Fin.ext_iff]
  refine ⟨dayC1_valid, h1, h2, h3, ?_⟩
  rw [h1, h3]
  norm_num [tol]

/-- C2: for every valid Day the allocated total equals
`min(daily_target, total capacity)` to within `1e-9`. -/
theorem allocator_conservation (d : Day) (hv : ValidDay d) :
    |(∑ h : Hour, allocate d h) - min d.daily_target (∑ h : Hour, d.capacity h)| ≤ tol := by
  have htol : (0:ℚ) < tol := by norm_num [tol]
  have hI := Inv_runAlloc d hv
  have hsc := hI.sum_le_cap
  have hsr := hI.sum_rem_le
  have hdl := hI.deficit_lt
  rw [SumAlloc_runAlloc] at hsc hsr hdl
  rcases lt_or_eq_of_le hI.rem_nonneg with hr | hr
  · -- remaining positive: every hour was filled to capacity and capacity < target
    have hfull := hI.pos_full hr
    rw [SumAlloc_runAlloc] at hfull
    have hKlt : (∑ h : Hour, d.capacity h) < d.daily_target := by linarith
    rw [min_eq_right (le_of_lt hKlt), hfull, sub_self, abs_zero]
    exact le_of_lt htol
  · -- remaining exhausted: total is within tol below both target and capacity
    rw [← hr, add_zero] at hsr hdl
    have hub : (∑ h : Hour, allocate d h) ≤ min d.daily_target (∑ h : Hour, d.capacity h) :=
      le_min hsr hsc
    have hlb : min d.daily_target (∑ h : Hour, d.capacity h) ≤ d.daily_target :=
      min_le_left _ _
    rw [abs_le]
    constructor <;> linarith

/-- C3: for every valid Day each hour's allocation is at most its capacity
plus `1e-9`, and a zero-capacity hour receives exactly zero. -/
theorem allocator_capacity_invariant (d : Day) (hv : ValidDay d) (h : Hour) :
    allocate d h ≤ d.capacity h + tol ∧ (d.capacity h = 0 → allocate d h = 0) := by
  have htol : (0:ℚ) < tol := by norm_num [tol]
  constructor
  · have hle : allocate d h ≤ d.capacity h := by
      unfold allocate runAlloc
      exact foldl_alloc_le_cap d h (hv.2 h).2 (sortedHours d)
        ⟨fun _ => 0, d.daily_target⟩ hv.1 ((hv.2 h).2)
    linarith
  · intro hcap
    unfold allocate runAlloc
    exact foldl_alloc_zero_cap d h hcap (sortedHours d) ⟨fun _ => 0, d.daily_target⟩ rfl

/-- C4: on a valid Day, among two hours with equal cost rank the
lower-indexed hour is filled first: if the higher-indexed hour got anything,
the lower-indexed one was filled to capacity. -/
theorem allocator_tie_break (d : Day) (hv : ValidDay d) (h1 h2 : Hour)
    (hrk : d.cost_rank h1 = d.cost_rank h2) (hlt : (h1 : ℕ) < (h2 : ℕ))
    (hpos : 0 < allocate d h2) : allocate d h1 = d.capacity h1 := by
  have hne : h1 ≠ h2 := fun he => lt_irrefl _ (he ▸ hlt)
  have hnr : ¬ hourLe d h2 h1 := by
    intro hcon
    rcases hcon with hlt' | ⟨_, hle'⟩
    · rw [hrk] at hlt'
      exact lt_irrefl _ hlt'
    · omega
  obtain ⟨l₁, l₂, l₃, hL⟩ := exists_split_of_pairwise (sortedHours_sorted d)
    (mem_sortedHours d h1) (mem_sortedHours d h2) hne hnr
  have hnd := sortedHours_nodup d
  rw [hL] at hnd
  have hnd1 : (h1 :: (l₂ ++ h2 :: l₃)).Nodup := hnd.of_append_right
  have hmem1 : h1 ∉ l₂ ++ h2 :: l₃ := (List.nodup_cons.mp hnd1).1
  have hnd2 : (h2 :: l₃).Nodup := (List.nodup_cons.mp hnd1).2.of_append_right
  have hmem2 : h2 ∉ l₃ := (List.nodup_cons.mp hnd2).1
  have h1nl2 : h1 ∉ l₂ := fun hx => hmem1 (List.mem_append.mpr (Or.inl hx))
  have h1nl3 : h1 ∉ l₃ := fun hx =>
    hmem1 (List.mem_append.mpr (Or.inr (List.mem_cons_of_mem h2 hx)))
  -- unfold the run along the split
  set st0 : AllocState := ⟨fun _ => 0, d.daily_target⟩ with hst0
  set stA := l₁.foldl (allocStep d) st0 with hstA
  set stB := allocStep d stA h1 with hstB
  set stC := l₂.foldl (allocStep d) stB with hstC
  set stD := allocStep d stC h2 with hstD
  have hrun : runAlloc d = l₃.foldl (allocStep d) stD := by
    unfold runAlloc
    rw [hL, List.foldl_append, List.foldl_cons, List.foldl_append, List.foldl_cons]
  have hA2 : allocate d h2 = allocAmt d stC h2 := by
    unfold allocate
    rw [hrun, foldl_alloc_notMem d l₃ stD h2 hmem2, hstD, allocStep_alloc_self]
  have hremC : 0 < stC.remaining := allocAmt_pos_remaining d stC h2 (hA2 ▸ hpos)
  have hremA : 0 ≤ stA.remaining := foldl_remaining_nonneg d l₁ st0 hv.1
  have hremB : 0 ≤ stB.remaining := allocStep_remaining_nonneg d stA h1 hremA
  have hremBC : stC.remaining ≤ stB.remaining :=
    foldl_remaining_le d l₂ stB hremB (fun h _ => (hv.2 h).2)
  have hposB : 0 < stB.remaining := lt_of_lt_of_le hremC hremBC
  have hfull : allocAmt d stA h1 = d.capacity h1 := allocStep_remaining_pos d stA h1 hposB
  -- the value written at h1 survives to the end of the run
  unfold allocate
  rw [hrun, foldl_alloc_notMem d l₃ stD h1 h1nl3, hstD,
    allocStep_alloc_ne d stC hne, hstC, foldl_alloc_notMem d l₂ stB h1 h1nl2, hstB,
    allocStep_alloc_self]
  exact hfull

/-! ## Witness days -/

/-- The end-to-end example day of the spec: target 500, hour 0 has rank 2 and
capacity 300, hour 1 has rank 1 and capacity 400, all remaining hours rank 99
and capacity 0. -/
def exampleDay : Day where
  cost_rank h := if h.val = 0 then 2 else if h.val = 1 then 1 else 99
  capacity h := if h.val = 0 then 300 else if h.val = 1 then 400 else 0
  daily_target := 500

theorem exampleDay_valid : ValidDay exampleDay := by
  refine ⟨by norm_num [exampleDay], fun h => ⟨?_, ?_⟩⟩ <;> fin_cases h <;>
    norm_num [exampleDay]

/-- A day with a cost-rank tie between hours 0 and 1 (rank 1, capacity 300
each) and a target of 400 that is exhausted partway through the tied pair. -/
def dayTie : Day where
  cost_rank h := if h.val = 0 then 1 else if h.val = 1 then 1 else 99
  capacity h := if h.val = 0 then 300 else if h.val = 1 then 300 else 0
  daily_target := 400

theorem dayTie_valid : ValidDay dayTie := by
  refine ⟨by norm_num [dayTie], fun h => ⟨?_, ?_⟩⟩ <;> fin_cases h <;>
    norm_num [dayTie]

theorem sortedHours_dayTie : sortedHours dayTie =
    [0, 1, 2, 3, 4, 5, 6, 7, 8, 9, 10, 11, 12, 13, 14, 15, 16, 17, 18, 19, 20, 21, 22, 23] := by
  decide

set_option maxHeartbeats 2000000 in
theorem allocate_dayTie_hour1 : allocate dayTie 1 = 100 := by
  simp only [allocate, runAlloc, sortedHours_dayTie, List.foldl]
  norm_num [allocStep, allocAmt, dayTie, tol, Function.update_apply, Fin.ext_iff]

/-- C1 witness: the amended greedy description applied to the spec's
end-to-end example day. -/
theorem allocator_greedy_strict_clamp_witness :
    ValidDay exampleDay ∧ allocate exampleDay = allocateByClaimLt exampleDay :=
  ⟨exampleDay_valid, allocator_greedy_strict_clamp exampleDay exampleDay_valid⟩

/-- C2 witness: conservation on the spec's end-to-end example day. -/
theorem allocator_conservation_witness :
    ValidDay exampleDay ∧
      |(∑ h : Hour, allocate exampleDay h)
        - min exampleDay.daily_target (∑ h : Hour, exampleDay.capacity h)| ≤ tol :=
  ⟨exampleDay_valid, allocator_conservation exampleDay exampleDay_valid⟩

/-- C3 witness: the capacity invariant at hour 0 of the example day. -/
theorem allocator_capacity_invariant_witness :
    ValidDay exampleDay ∧
      (allocate exampleDay 0 ≤ exampleDay.capacity 0 + tol ∧
        (exampleDay.capacity 0 = 0 → allocate exampleDay 0 = 0)) :=
  ⟨exampleDay_valid, allocator_capacity_invariant exampleDay exampleDay_valid 0⟩

/-- C4 witness: on `dayTie` hour 1 gets a positive allocation, so hour 0 was
filled to its full capacity first. -/
theorem allocator_tie_break_witness :
    ValidDay dayTie ∧ dayTie.cost_rank 0 = dayTie.cost_rank 1
      ∧ ((0 : Hour) : ℕ) < ((1 : Hour) : ℕ)
      ∧ 0 < allocate dayTie 1
      ∧ allocate dayTie 0 = dayTie.capacity 0 := by
  have hpos : 0 < allocate dayTie 1 := by
    rw [allocate_dayTie_hour1]; norm_num
  exact ⟨dayTie_valid, by decide, by decide, hpos,
    allocator_tie_break dayTie dayTie_valid 0 1 (by decide) (by decide) hpos⟩

/-! ## The raw per-day loop, including its handling of malformed input -/

/-- One raw row of the merged data table as read by
`calculate_ppfd_allocation`: hour index, `RANK eur/ppfd`, the repeated
daily-requirement column and the capacity column.  `none` models a NaN cell. -/
structure RawRow where
  hour : ℕ
  rank : ℤ
  req : Option ℚ
  cap : Option ℚ

/-- Row comparison of `sort_values(by=['RANK eur/ppfd', 'hour'])`. -/
def rowLe (a b : RawRow) : Prop :=
  a.rank < b.rank ∨ (a.rank = b.rank ∧ a.hour ≤ b.hour)

instance : DecidableRel rowLe := fun a b => by unfold rowLe; infer_instance

/-- `daily_total_requirement = group[...].fillna(0).mean()`: NaN requirement
cells are replaced by 0 and the column mean over however many rows the day has
becomes the daily target.  There is no row-count check and no NaN rejection. -/
def dayTarget (rows : List RawRow) : ℚ :=
  ((rows.map fun r => r.req.getD 0).sum) / rows.length

/-- The per-day loop of `calculate_ppfd_allocation` on the raw rows: sort by
`(rank, hour)`, allocate greedily with NaN capacity treated as `0.0`, clamp a
remaining amount strictly below `1e-9` to zero.  Returns the
`(hour, ppfd_allocated)` pairs in processing order.  The function is total:
days with the wrong row count or NaN cells are processed like any other. -/
def calculate_ppfd_allocation_day (rows : List RawRow) : List (ℕ × ℚ) :=
  ((rows.insertionSort rowLe).foldl
    (fun st r =>
      let c := r.cap.getD 0
      let a := if 0 < st.2 then (if c < st.2 then c else st.2) else 0
      let rem := st.2 - a
      (st.1 ++ [(r.hour, a)], if rem < tol then 0 else rem))
    ([], dayTarget rows)).1

/-- A malformed day: only 3 rows, and the requirement column is NaN in all
rows but the first. -/
def rows3 : List RawRow :=
  [⟨0, 1, some 300, some 5⟩, ⟨1, 2, none, some 5⟩, ⟨2, 3, none, some 5⟩]

/-- C9 failing-input evaluation: the Allocator does not fail fast on a
malformed day.  The 3-row day `rows3` is processed normally, its NaN
requirement cells are silently coerced to 0 so that the daily target becomes
the mean 100 instead of 300, and a 3-hour allocation is returned instead of a
descriptive error. -/
theorem allocator_malformed_day_processed :
    dayTarget rows3 = 100
      ∧ calculate_ppfd_allocation_day rows3 = [(0, 5), (1, 5), (2, 5)] := by
  constructor
  · norm_num [dayTarget, rows3]
  · norm_num [calculate_ppfd_allocation_day, dayTarget, rows3, tol,
      List.insertionSort, List.orderedInsert, rowLe, List.foldl]

/-! ## Scorer: `analyze_performance.py` -/

/-- The per-hour exact-match tolerance: `0.1` PPFD units. -/
def matchTol : ℚ := 1 / 10

/-- A model response as seen by `extract_led_allocations`: a parsed dict with
an `allocation_PPFD_per_hour` mapping (the key `hour_X` is modelled by the
natural number `X`), a dict with a `led_allocations`/`allocations` list, or a
bare list. -/
inductive ModelResponse where
  | allocMap (m : List (ℕ × ℚ))
  | ledList (l : List ℚ)
  | rawList (l : List ℚ)

/-- Reading an hourly dict with a default: `allocations.get(hour_key, 0.0)`,
the `hour_X` key modelled by the natural number `X`. -/
def dictGet (m : List (ℕ × ℚ)) (h : ℕ) : ℚ :=
  match m with
  | [] => 0
  | (k, v) :: t => if h = k then v else dictGet t h

/-- `extract_led_allocations` (lines 56-89): an `allocation_PPFD_per_hour`
dict is turned into the ordered 24-entry list `hour_0 .. hour_23`, a missing
hour key silently becoming `0.0`; a `led_allocations`/`allocations` list is
returned as-is without a length check; a bare list is accepted only when its
length is 24; an absent response yields `None`. -/
def extract_led_allocations : Option ModelResponse → Option (List ℚ)
  | none => none
  | some (.allocMap m) => some ((List.range 24).map fun h => dictGet m h)
  | some (.ledList l) => some l
  | some (.rawList l) => if l.length = 24 then some l else none

/-- The record returned by `calculate_accuracy_metrics`.  A `none` models
float `inf`.  The code reports `hourly_rmse`, the square root of the stored
mean of squared differences `hourly_mse`. -/
structure AccuracyMetrics where
  hourly_mae : Option ℚ
  hourly_mse : Option ℚ
  exact_hourly_matches : ℕ
  exact_match_rate : ℚ

/-- `calculate_accuracy_metrics` (lines 146-173): on two 24-entry lists it
counts an hour as an exact match when `|predicted - optimal| < 0.1` (strict),
and returns infinite error with zero matches when either side is absent or
not of length 24. -/
def calculate_accuracy_metrics (predicted optimal : Option (List ℚ)) :
    AccuracyMetrics :=
  match predicted, optimal with
  | some p, some o =>
    if p.length = 24 ∧ o.length = 24 then
      let diffs := List.zipWith (fun a b => |a - b|) p o
      let nMatches := (diffs.filter fun x => decide (x < matchTol)).length
      { hourly_mae := some (diffs.sum / 24)
        hourly_mse := some ((diffs.map fun x => x ^ 2).sum / 24)
        exact_hourly_matches := nMatches
        exact_match_rate := (nMatches : ℚ) / 24 * 100 }
    else ⟨none, none, 0, 0⟩
  | _, _ => ⟨none, none, 0, 0⟩

/-- One ground-truth row: the hour's `EUR/PPFD` price and its optimal
`ppfd_allocated`. -/
structure GTRow where
  eur_per_ppfd : ℚ
  ppfd_allocated : ℚ

/-- The record returned by `calculate_cost_metrics`; `none` models float
`inf`. -/
structure CostMetrics where
  predicted_cost : Option ℚ
  optimal_cost : ℚ
  cost_difference : Option ℚ
  cost_difference_percent : Option ℚ

/-- Predicted electricity cost: the loop over `hour in range(24)` guarded by
`hour < len(ground_truth_rows)`. -/
def predicted_cost_of (p : List ℚ) (rows : List GTRow) : ℚ :=
  (((List.range 24).filter fun h => decide (h < rows.length)).map
    fun h => p.getD h 0 * (rows.getD h ⟨0, 0⟩).eur_per_ppfd).sum

/-- Optimal electricity cost from the ground-truth rows, same loop. -/
def optimal_cost_of (rows : List GTRow) : ℚ :=
  (((List.range 24).filter fun h => decide (h < rows.length)).map
    fun h => (rows.getD h ⟨0, 0⟩).ppfd_allocated * (rows.getD h ⟨0, 0⟩).eur_per_ppfd).sum

/-- `calculate_cost_metrics` (lines 111-144): infinite costs for an absent or
non-24-entry candidate; otherwise
`cost_difference_percent = cost_diff / optimal_cost * 100` when
`optimal_cost != 0`, and `inf` (`none`) whenever `optimal_cost == 0`,
regardless of the candidate cost. -/
def calculate_cost_metrics (predicted : Option (List ℚ)) (rows : List GTRow) :
    CostMetrics :=
  match predicted with
  | some p =>
    if p.length = 24 then
      let pc := predicted_cost_of p rows
      let oc := optimal_cost_of rows
      ⟨some pc, oc, some (pc - oc),
        if oc ≠ 0 then some ((pc - oc) / oc * 100) else none⟩
    else ⟨none, 0, none, none⟩
  | none => ⟨none, 0, none, none⟩

/-- `cost_difference_percentage` as computed in `analyze_model_performance.py`
(lines 390-395): the usual formula when the ground-truth cost is nonzero,
`inf` when only the model cost is nonzero, and `0.0` when both are zero. -/
def cost_difference_percentage (total_cost_model total_cost_ground_truth : ℚ) :
    Option ℚ :=
  if total_cost_ground_truth ≠ 0 then
    some ((total_cost_model - total_cost_ground_truth) / total_cost_ground_truth * 100)
  else if total_cost_model ≠ 0 then none
  else some 0

/-! ## Scorer: `comprehensive_final_analysis.py` -/

/-- `np.allclose`'s default relative tolerance `1e-5`. -/
def rtol : ℚ := 1 / 100000

/-- The value `allocation.get(hour_key, 0.0)` read from an hourly mapping. -/
def hourVal (m : List (ℕ × ℚ)) (h : ℕ) : ℚ := dictGet m h

/-- The record returned by `calculate_optimization_accuracy`; `none` models
float `inf`. -/
structure OptAccuracy where
  ppfd_mae : Option ℚ
  cost_optimization_score : ℚ
  perfect_match : Bool
  total_ppfd_error : Option ℚ

/-- `calculate_optimization_accuracy` (lines 100-145): per-hour values read
with default `0.0`; `perfect_match = np.allclose(model, gt, atol=0.1)`, which
holds exactly when every hour satisfies `|model - gt| <= 0.1 + 1e-5 * |gt|`. -/
def calculate_optimization_accuracy (model gt : List (ℕ × ℚ)) : OptAccuracy :=
  if model = [] ∨ gt = [] then ⟨none, 0, false, none⟩
  else
    let diffs := (List.range 24).map fun h => |hourVal model h - hourVal gt h|
    let terr := diffs.sum
    let pm := (List.range 24).all fun h =>
      decide (|hourVal model h - hourVal gt h| ≤ matchTol + rtol * |hourVal gt h|)
    let maxerr := ((List.range 24).map fun h => hourVal gt h).sum
    ⟨some (diffs.sum / 24),
      if 0 < maxerr then max 0 (100 * (1 - terr / maxerr)) else (if pm then 100 else 0),
      pm, some terr⟩

/-- A candidate whose only hour key is `hour_0`, holding `0.1`, and a
ground truth of 24 zeros: hour 0 differs by exactly the tolerance. -/
def model1 : List (ℕ × ℚ) := [(0, 1 / 10)]

/-- Ground-truth mapping that is zero at its only key. -/
def gt1 : List (ℕ × ℚ) := [(0, 0)]

/-- The 24-entry value list read from `model1`. -/
def mv1 : List ℚ := (List.range 24).map fun h => hourVal model1 h

/-- The 24-entry value list read from `gt1`. -/
def gv1 : List ℚ := (List.range 24).map fun h => hourVal gt1 h

set_option maxHeartbeats 2000000 in
/-- C5 counterexample: with a per-hour difference of exactly `0.1` at hour 0,
the 24h-exact flag `perfect_match` (an `np.allclose` with `atol=0.1` and
`rtol=1e-5`) is `true`, although hour 0 is not a per-hour exact match and the
strict `< 0.1` criterion matches only 23 of the 24 hours.  So
`exact_24h_match` is not `true` iff all 24 hours match. -/
theorem scorer_tolerance_counterexample :
    (calculate_optimization_accuracy model1 gt1).perfect_match = true
      ∧ ¬ (|hourVal model1 0 - hourVal gt1 0| < matchTol)
      ∧ (calculate_accuracy_metrics (some mv1) (some gv1)).exact_hourly_matches = 23 := by
  have hrange : List.range 24 =
      [0, 1, 2, 3, 4, 5, 6, 7, 8, 9, 10, 11, 12, 13, 14, 15, 16, 17, 18, 19, 20, 21, 22, 23] := by
    decide
  refine ⟨?_, ?_, ?_⟩
  · simp only [calculate_optimization_accuracy, hrange]
    norm_num [model1, gt1, hourVal, dictGet, matchTol, rtol, abs_of_nonneg]
  · norm_num [model1, gt1, hourVal, dictGet, matchTol, abs_of_nonneg]
  · simp only [calculate_accuracy_metrics, mv1, gv1, hrange]
    norm_num [model1, gt1, hourVal, dictGet, matchTol, abs_of_nonneg]

/-- Counting matching entries of two equal-length lists equals counting the
matching index set. -/
theorem filter_zipWith_abs_count :
    ∀ (n : ℕ) (p o : List ℚ), p.length = n → o.length = n →
      ((List.zipWith (fun a b => |a - b|) p o).filter fun x => decide (x < matchTol)).length
        = ((Finset.univ : Finset (Fin n)).filter
            fun i => |p.getD i.val 0 - o.getD i.val 0| < matchTol).card := by
  intro n
  induction n with
  | zero =>
      intro p o hp ho
      rw [List.length_eq_zero.mp hp, List.length_eq_zero.mp ho]
      simp
  | succ k ih =>
      intro p o hp ho
      match p, o with
      | a :: p', b :: o' =>
        have hp' : p'.length = k := by simpa using hp
        have ho' : o'.length = k := by simpa using ho
        rw [List.zipWith_cons_cons, List.filter_cons]
        rw [Finset.card_filter, Fin.sum_univ_succ]
        simp only [Fin.val_zero, List.getD_cons_zero, Fin.val_succ, List.getD_cons_succ]
        rw [← Finset.card_filter]
        by_cases hab : |a - b| < matchTol
        · rw [if_pos (by simpa using hab), if_pos hab, List.length_cons,
            ih p' o' hp' ho']
          omega
        · rw [if_neg (by simpa using hab), if_neg hab, zero_add, ih p' o' hp' ho']

/-- C5 (amended): the Scorer's per-hour exact match is the strict comparison
`|candidate - ground truth| < 0.1` and `hourly_match_count` counts exactly the
matching hours; but the 24h-exact flag (`perfect_match`) is an `np.allclose`
with `atol = 0.1` and default `rtol = 1e-5`: it is true iff every hour
satisfies `|candidate - gt| <= 0.1 + 1e-5 * |gt|`, so a per-hour difference of
exactly `0.1` still counts toward the 24h flag although it is not a per-hour
match. -/
theorem scorer_tolerance (p o : List ℚ) (hp : p.length = 24) (ho : o.length = 24)
    (m g : List (ℕ × ℚ)) (hm : m ≠ []) (hg : g ≠ []) :
    (calculate_accuracy_metrics (some p) (some o)).exact_hourly_matches
        = ((Finset.univ : Finset (Fin 24)).filter
            fun h => |p.getD h.val 0 - o.getD h.val 0| < matchTol).card
      ∧ ((calculate_optimization_accuracy m g).perfect_match = true
          ↔ ∀ h : Fin 24, |hourVal m h.val - hourVal g h.val|
              ≤ matchTol + rtol * |hourVal g h.val|) := by
  constructor
  · have hcond : p.length = 24 ∧ o.length = 24 := ⟨hp, ho⟩
    simp only [calculate_accuracy_metrics, if_pos hcond]
    exact filter_zipWith_abs_count 24 p o hp ho
  · have hcase : ¬ (m = [] ∨ g = []) := by
      rintro (h | h)
      · exact hm h
      · exact hg h
    simp only [calculate_optimization_accuracy, if_neg hcase]
    rw [List.all_eq_true]
    constructor
    · intro hall h
      have := hall h.val (List.mem_range.mpr h.isLt)
      simpa using this
    · intro hall x hx
      have hlt := List.mem_range.mp hx
      simpa using hall ⟨x, hlt⟩

/-- A 24-entry list of zeros. -/
def pZeros : List ℚ := List.replicate 24 0

/-- C5 witness: the amended tolerance description applied to a zero candidate
against a zero ground truth. -/
theorem scorer_tolerance_witness :
    pZeros.length = 24 ∧ model1 ≠ [] ∧ gt1 ≠ []
      ∧ ((calculate_accuracy_metrics (some pZeros) (some pZeros)).exact_hourly_matches
            = ((Finset.univ : Finset (Fin 24)).filter
                fun h => |pZeros.getD h.val 0 - pZeros.getD h.val 0| < matchTol).card
          ∧ ((calculate_optimization_accuracy model1 gt1).perfect_match = true
              ↔ ∀ h : Fin 24, |hourVal model1 h.val - hourVal gt1 h.val|
                  ≤ matchTol + rtol * |hourVal gt1 h.val|)) :=
  ⟨by simp [pZeros], by simp [model1], by simp [gt1],
    scorer_tolerance pZeros pZeros (by simp [pZeros]) (by simp [pZeros])
      model1 gt1 (by simp [model1]) (by simp [gt1])⟩

/-- A model response whose hourly mapping holds a single hour key: an
incomplete (1-entry) allocation. -/
def candPartial : Option ModelResponse := some (.allocMap [(0, 5)])

/-- The all-zero 24-hour ground truth. -/
def gtZeros : List ℚ := List.replicate 24 0

set_option maxHeartbeats 2000000 in
/-- C6 counterexample: a candidate with a single `hour_0` key is not a
complete 24-entry mapping, yet `extract_led_allocations` silently zero-fills
it into a full 24-entry list and the scenario is scored normally: 23 exact
hourly matches and a small finite MAE of `5/24`, not the hard-failure record
with zero matches and the fixed `1e4` penalty. -/
theorem scorer_hard_failure_counterexample :
    extract_led_allocations candPartial = some (5 :: List.replicate 23 0)
      ∧ (calculate_accuracy_metrics (extract_led_allocations candPartial)
          (some gtZeros)).exact_hourly_matches = 23
      ∧ (calculate_accuracy_metrics (extract_led_allocations candPartial)
          (some gtZeros)).hourly_mae = some (5 / 24) := by
  have hrange : List.range 24 =
      [0, 1, 2, 3, 4, 5, 6, 7, 8, 9, 10, 11, 12, 13, 14, 15, 16, 17, 18, 19, 20, 21, 22, 23] := by
    decide
  have hex : extract_led_allocations candPartial = some (5 :: List.replicate 23 0) := by
    simp only [extract_led_allocations, candPartial, hrange]
    norm_num [dictGet, List.replicate]
  refine ⟨hex, ?_, ?_⟩ <;>
    rw [hex] <;>
    simp only [calculate_accuracy_metrics, gtZeros] <;>
    norm_num [List.replicate, matchTol, abs_of_nonneg]

/-! ## Aggregation: `analysis_scripts/model_analyzer.py` -/

/-- The per-scenario comparison record handled by
`process_ground_truth_comparison`.  `daily_relative_error` is `none` for
float `inf`.  The presentation-only fields `total_optimal_ppfd` and
`scenario_complexity` of the Python dict are not modelled. -/
structure GTComparison where
  exact_24h_match : Bool
  hourly_matches : ℕ
  hourly_match_rate : ℚ
  mean_absolute_error : ℚ
  daily_absolute_error : ℚ
  daily_relative_error : Option ℚ
  total_model_ppfd : ℚ

/-- The fixed hard-failure penalty `10000.0`. -/
def penaltyMAE : ℚ := 10000

/-- The `failure_comp` record appended for a scenario whose candidate is
absent or not a 24-entry mapping (lines 197-205). -/
def failure_comp : GTComparison :=
  ⟨false, 0, 0, penaltyMAE, penaltyMAE, none, 0⟩

/-- The success test of the scenario loop (line 187): there is an entry at
index `i` of the compacted list of successfully parsed hourly allocations and
it has exactly 24 entries. -/
def scenarioValid (cands : List (List (ℕ × ℚ))) (i : ℕ) : Prop :=
  i < cands.length ∧ (cands.getD i []).length = 24

instance (cands : List (List (ℕ × ℚ))) (i : ℕ) : Decidable (scenarioValid cands i) := by
  unfold scenarioValid; infer_instance

/-- The comparison produced for scenario `i`: the ground-truth comparison of
the parsed allocation when the scenario is valid — computed by
`calculate_ground_truth_metrics` of the repository's `data_loader.py`, which
is not part of the sources and is therefore an explicit parameter
`successFn` here — and the `failure_comp` record otherwise. -/
def compAt (successFn : List (ℕ × ℚ) → ℕ → GTComparison)
    (cands : List (List (ℕ × ℚ))) (i : ℕ) : GTComparison :=
  if scenarioValid cands i then successFn (cands.getD i []) i else failure_comp

/-- The `ground_truth_comparisons` list over all tested scenarios. -/
def scenario_comparisons (successFn : List (ℕ × ℚ) → ℕ → GTComparison)
    (cands : List (List (ℕ × ℚ))) (total : ℕ) : List GTComparison :=
  (List.range total).map (compAt successFn cands)

/-- The aggregate `ground_truth_analysis` record; `mean_daily_mae` is `none`
for float `inf` (no below-penalty scenario at all). -/
structure GTAnalysis where
  total_scenarios_tested : ℕ
  scenarios_with_valid_responses : ℕ
  exact_24h_matches : ℕ
  exact_24h_match_rate : ℚ
  total_hourly_matches : ℕ
  mean_hourly_match_rate : ℚ
  mean_daily_mae : Option ℚ
  mean_success_weighted_mae : ℚ

/-- `process_ground_truth_comparison` (lines 170-241): rates over the total
number of scenarios tested, `mean_daily_mae` over the scenarios whose
`daily_absolute_error` is strictly below the `1e4` penalty, and the
success-weighted MAE over all scenarios including penalties. -/
def process_ground_truth_comparison (successFn : List (ℕ × ℚ) → ℕ → GTComparison)
    (cands : List (List (ℕ × ℚ))) (total : ℕ) : Option GTAnalysis :=
  let comps := scenario_comparisons successFn cands total
  if comps.isEmpty then none
  else
    let exact := (comps.filter fun c => c.exact_24h_match).length
    let totalHourly := (comps.map fun c => c.hourly_matches).sum
    let allMaes := comps.map fun c => c.daily_absolute_error
    let successMaes := allMaes.filter fun x => decide (x < penaltyMAE)
    some
      { total_scenarios_tested := total
        scenarios_with_valid_responses := successMaes.length
        exact_24h_matches := exact
        exact_24h_match_rate := if 0 < total then (exact : ℚ) / total * 100 else 0
        total_hourly_matches := totalHourly
        mean_hourly_match_rate :=
          if 0 < total * 24 then (totalHourly : ℚ) / (total * 24) * 100 else 0
        mean_daily_mae :=
          if successMaes.isEmpty then none
          else some (successMaes.sum / successMaes.length)
        mean_success_weighted_mae :=
          if allMaes.isEmpty then 0 else allMaes.sum / allMaes.length }

theorem getD_map_range {α : Type} (f : ℕ → α) (dflt : α) (n i : ℕ) (hi : i < n) :
    (((List.range n).map f).getD i dflt) = f i := by
  rw [List.getD_eq_getElem?_getD, List.getElem?_map, List.getElem?_range hi]
  rfl

set_option maxHeartbeats 1000000 in
/-- C6 (amended): in `model_analyzer` a scenario whose candidate is absent
(no entry at its index) or whose mapping does not hold exactly 24 entries is
scored as the hard-failure record — penalty MAE `1e4`, zero hourly matches,
24h flag false, relative error infinite — and in `analyze_performance` an
absent candidate yields infinite MAE, zero matches and infinite cost
difference; the `1e4` penalty is specific to `model_analyzer`, and an
incomplete `hour_X` mapping in `analyze_performance` is zero-filled and
scored normally rather than hard-failed (see the counterexample). -/
theorem scorer_hard_failure (successFn : List (ℕ × ℚ) → ℕ → GTComparison)
    (cands : List (List (ℕ × ℚ))) (total i : ℕ) (hi : i < total)
    (hbad : ¬ scenarioValid cands i) (rows : List GTRow) (o : Option (List ℚ)) :
    (scenario_comparisons successFn cands total).getD i failure_comp = failure_comp
      ∧ failure_comp.mean_absolute_error = penaltyMAE
      ∧ failure_comp.hourly_matches = 0
      ∧ failure_comp.exact_24h_match = false
      ∧ failure_comp.daily_relative_error = none
      ∧ (calculate_cost_metrics none rows).cost_difference = none
      ∧ (calculate_accuracy_metrics none o).hourly_mae = none
      ∧ (calculate_accuracy_metrics none o).exact_hourly_matches = 0 := by
  refine ⟨?_, rfl, rfl, rfl, rfl, rfl, ?_, ?_⟩
  · unfold scenario_comparisons
    rw [getD_map_range _ _ total i hi]
    unfold compAt
    rw [if_neg hbad]
  · cases o <;> rfl
  · cases o <;> rfl

/-! ## List-to-Finset counting bridges for the aggregation -/

theorem sum_map_range {M : Type} [AddCommMonoid M] (f : ℕ → M) (n : ℕ) :
    ((List.range n).map f).sum = ∑ i in Finset.range n, f i := by
  induction n with
  | zero => simp
  | succ k ih =>
      rw [List.range_succ, List.map_append, List.sum_append, ih, Finset.sum_range_succ]
      simp

theorem length_filter_bool_map_range {α : Type} (f : ℕ → α) (q : α → Bool) (n : ℕ) :
    (((List.range n).map f).filter q).length
      = ((Finset.range n).filter fun i => q (f i) = true).card := by
  induction n with
  | zero => simp
  | succ k ih =>
      rw [List.range_succ, List.map_append, List.filter_append, List.length_append, ih,
        Finset.range_succ, Finset.filter_insert]
      by_cases h : q (f k) = true
      · rw [if_pos h, Finset.card_insert_of_not_mem (by simp)]
        simp [h]
      · rw [if_neg h]
        simp [h]

theorem length_filter_lt_map_range (f : ℕ → ℚ) (c : ℚ) (n : ℕ) :
    ((((List.range n).map f).filter fun x => decide (x < c)).length)
      = ((Finset.range n).filter fun i => f i < c).card := by
  induction n with
  | zero => simp
  | succ k ih =>
      rw [List.range_succ, List.map_append, List.filter_append, List.length_append, ih,
        Finset.range_succ, Finset.filter_insert]
      by_cases h : f k < c
      · rw [if_pos h, Finset.card_insert_of_not_mem (by simp)]
        simp [h]
      · rw [if_neg h]
        simp [h]

theorem sum_filter_lt_map_range (f : ℕ → ℚ) (c : ℚ) (n : ℕ) :
    ((((List.range n).map f).filter fun x => decide (x < c)).sum)
      = ∑ i in (Finset.range n).filter fun i => f i < c, f i := by
  induction n with
  | zero => simp
  | succ k ih =>
      rw [List.range_succ, List.map_append, List.filter_append, List.sum_append, ih,
        Finset.range_succ, Finset.filter_insert]
      by_cases h : f k < c
      · rw [if_pos h, Finset.sum_insert (by simp)]
        simp [h]
        ring
      · rw [if_neg h]
        simp [h]

/-- C7: the aggregation computes the exact-match and hourly-match rates with
the total number of scenarios tested in the denominator (hard failures
contribute 0 matches against a denominator of `scenarios × 24`), carries the
penalty `1e4` for every hard failure, averages `mean_daily_mae` over exactly
the scenarios whose daily error is below the penalty (so every hard failure
is excluded), and averages the success-weighted MAE over all scenarios,
penalties included. -/
theorem aggregation_denominators (successFn : List (ℕ × ℚ) → ℕ → GTComparison)
    (cands : List (List (ℕ × ℚ))) (total : ℕ) (A : GTAnalysis)
    (hA : process_ground_truth_comparison successFn cands total = some A) :
    A.total_scenarios_tested = total
      ∧ A.exact_24h_match_rate
          = (((Finset.range total).filter fun i =>
              (compAt successFn cands i).exact_24h_match = true).card : ℚ) / total * 100
      ∧ A.mean_hourly_match_rate
          = ((∑ i in Finset.range total, (compAt successFn cands i).hourly_matches : ℕ) : ℚ)
              / (total * 24) * 100
      ∧ (∀ i, ¬ scenarioValid cands i →
            (compAt successFn cands i).hourly_matches = 0
              ∧ (compAt successFn cands i).daily_absolute_error = penaltyMAE)
      ∧ A.mean_daily_mae
          = (if ((Finset.range total).filter fun i =>
                  (compAt successFn cands i).daily_absolute_error < penaltyMAE) = ∅
             then none
             else some ((∑ i in (Finset.range total).filter fun i =>
                    (compAt successFn cands i).daily_absolute_error < penaltyMAE,
                  (compAt successFn cands i).daily_absolute_error)
                / (((Finset.range total).filter fun i =>
                    (compAt successFn cands i).daily_absolute_error < penaltyMAE).card : ℚ)))
      ∧ A.mean_success_weighted_mae
          = (∑ i in Finset.range total,
              (compAt successFn cands i).daily_absolute_error) / total := by
  have htot : 0 < total := by
    by_contra hc
    have h0 : total = 0 := by omega
    subst h0
    simp [process_ground_truth_comparison, scenario_comparisons] at hA
  have hne : ¬ (scenario_comparisons successFn cands total).isEmpty = true := by
    simp only [scenario_comparisons, List.isEmpty_iff, List.map_eq_nil_iff,
      List.range_eq_nil]
    omega
  rw [process_ground_truth_comparison] at hA
  simp only [if_neg hne, Option.some.injEq] at hA
  subst hA
  simp only [scenario_comparisons, List.map_map, Function.comp_def]
  refine ⟨by trivial, ?_, ?_, ?_, ?_, ?_⟩
  · rw [if_pos htot, length_filter_bool_map_range (compAt successFn cands)
      (fun c => c.exact_24h_match) total]
  · rw [if_pos (by omega : 0 < total * 24),
      sum_map_range (fun i => (compAt successFn cands i).hourly_matches) total]
  · intro i hbad
    constructor <;> (unfold compAt; rw [if_neg hbad]) <;> rfl
  · have hlen := length_filter_lt_map_range
      (fun i => (compAt successFn cands i).daily_absolute_error) penaltyMAE total
    have hsum := sum_filter_lt_map_range
      (fun i => (compAt successFn cands i).daily_absolute_error) penaltyMAE total
    have hempty :
        ((((List.range total).map fun i =>
            (compAt successFn cands i).daily_absolute_error).filter
              fun x => decide (x < penaltyMAE)).isEmpty = true)
          ↔ (((Finset.range total).filter fun i =>
              (compAt successFn cands i).daily_absolute_error < penaltyMAE) = ∅) := by
      rw [List.isEmpty_iff, ← List.length_eq_zero, hlen, Finset.card_eq_zero]
    by_cases hS : ((Finset.range total).filter fun i =>
        (compAt successFn cands i).daily_absolute_error < penaltyMAE) = ∅
    · rw [if_pos (hempty.mpr hS), if_pos hS]
    · rw [if_neg (fun hc => hS (hempty.mp hc)), if_neg hS, hsum, hlen]
  · rw [if_neg (by simpa [List.isEmpty_iff, List.map_eq_nil_iff, List.range_eq_nil] using
      (by omega : ¬ total = 0))]
    rw [sum_map_range (fun i => (compAt successFn cands i).daily_absolute_error) total]
    simp [List.length_map, List.length_range]

/-- C10: the aggregation classifies a scenario as a hard failure for the
success-only mean exactly when its daily absolute error is at least `1e4`;
a successfully parsed 24-entry candidate with a genuine daily error of `1e4`
or more is therefore excluded from `mean_daily_mae` and not counted in
`scenarios_with_valid_responses`, although it was a valid complete
response. -/
theorem aggregation_hard_failure_threshold (successFn : List (ℕ × ℚ) → ℕ → GTComparison)
    (cands : List (List (ℕ × ℚ))) (total i : ℕ) (A : GTAnalysis)
    (hA : process_ground_truth_comparison successFn cands total = some A)
    (hi : i < total) (hvalid : scenarioValid cands i)
    (hbig : penaltyMAE ≤ (successFn (cands.getD i []) i).daily_absolute_error) :
    A.scenarios_with_valid_responses
        = ((Finset.range total).filter fun j =>
            (compAt successFn cands j).daily_absolute_error < penaltyMAE).card
      ∧ i ∉ ((Finset.range total).filter fun j =>
            (compAt successFn cands j).daily_absolute_error < penaltyMAE)
      ∧ A.mean_daily_mae
          = (if ((Finset.range total).filter fun j =>
                  (compAt successFn cands j).daily_absolute_error < penaltyMAE) = ∅
             then none
             else some ((∑ j in (Finset.range total).filter fun j =>
                    (compAt successFn cands j).daily_absolute_error < penaltyMAE,
                  (compAt successFn cands j).daily_absolute_error)
                / (((Finset.range total).filter fun j =>
                    (compAt successFn cands j).daily_absolute_error < penaltyMAE).card : ℚ))) := by
  have hnotmem : i ∉ ((Finset.range total).filter fun j =>
      (compAt successFn cands j).daily_absolute_error < penaltyMAE) := by
    simp only [Finset.mem_filter, Finset.mem_range, not_and]
    intro _
    unfold compAt
    rw [if_pos hvalid]
    exact not_lt.mpr hbig
  have hne : ¬ (scenario_comparisons successFn cands total).isEmpty = true := by
    simp only [scenario_comparisons, List.isEmpty_iff, List.map_eq_nil_iff,
      List.range_eq_nil]
    omega
  rw [process_ground_truth_comparison] at hA
  simp only [if_neg hne, Option.some.injEq] at hA
  subst hA
  simp only [scenario_comparisons, List.map_map, Function.comp_def]
  have hlen := length_filter_lt_map_range
    (fun j => (compAt successFn cands j).daily_absolute_error) penaltyMAE total
  have hsum := sum_filter_lt_map_range
    (fun j => (compAt successFn cands j).daily_absolute_error) penaltyMAE total
  refine ⟨hlen, hnotmem, ?_⟩
  have hempty :
      ((((List.range total).map fun j =>
          (compAt successFn cands j).daily_absolute_error).filter
            fun x => decide (x < penaltyMAE)).isEmpty = true)
        ↔ (((Finset.range total).filter fun j =>
            (compAt successFn cands j).daily_absolute_error < penaltyMAE) = ∅) := by
    rw [List.isEmpty_iff, ← List.length_eq_zero, hlen, Finset.card_eq_zero]
  by_cases hS : ((Finset.range total).filter fun j =>
      (compAt successFn cands j).daily_absolute_error < penaltyMAE) = ∅
  · rw [if_pos (hempty.mpr hS), if_pos hS]
  · rw [if_neg (fun hc => hS (hempty.mp hc)), if_neg hS, hsum, hlen]

/-! ## Cost-percent claims -/

theorem getD_replicate {α : Type} (a d : α) (n h : ℕ) :
    (List.replicate n a).getD h d = if h < n then a else d := by
  induction n generalizing h with
  | zero => simp
  | succ k ih =>
      cases h with
      | zero => simp [List.replicate_succ]
      | succ m =>
          simpa [List.replicate_succ, Nat.succ_lt_succ_iff] using ih m

/-- 24 ground-truth rows with price 1 and optimal allocation 0, so that the
ground-truth cost is 0. -/
def rows0 : List GTRow := List.replicate 24 ⟨1, 0⟩

theorem predicted_cost_pZeros : predicted_cost_of pZeros rows0 = 0 := by
  apply List.sum_eq_zero
  intro x hx
  obtain ⟨h, _, rfl⟩ := List.mem_map.mp hx
  simp only [pZeros]
  rw [getD_replicate]
  simp

theorem optimal_cost_rows0 : optimal_cost_of rows0 = 0 := by
  apply List.sum_eq_zero
  intro x hx
  obtain ⟨h, _, rfl⟩ := List.mem_map.mp hx
  simp only [rows0]
  rw [getD_replicate]
  rw [apply_ite (fun r : GTRow => r.ppfd_allocated)]
  simp

/-- C8 counterexample: a zero candidate against zero-cost ground-truth rows.
Both costs are 0, yet `cost_difference_percent` is infinite (`none`), not 0 as
the claim states. -/
theorem cost_percent_zero_counterexample :
    (calculate_cost_metrics (some pZeros) rows0).predicted_cost = some 0
      ∧ (calculate_cost_metrics (some pZeros) rows0).optimal_cost = 0
      ∧ (calculate_cost_metrics (some pZeros) rows0).cost_difference_percent ≠ some 0 := by
  have hlen : pZeros.length = 24 := by simp [pZeros]
  simp only [calculate_cost_metrics, if_pos hlen, predicted_cost_pZeros,
    optimal_cost_rows0]
  norm_num
  simp

/-- C8 (amended): in `calculate_cost_metrics` a zero ground-truth cost always
yields an infinite (`none`) percent — also when the candidate cost is 0 — and
no division-by-zero is ever raised; a nonzero ground-truth cost yields
`(candidate - gt) / gt * 100`.  The claimed three-way behaviour (0 when both
costs are 0, `inf` otherwise) is the one implemented by
`cost_difference_percentage` in `analyze_model_performance.py`. -/
theorem cost_percent (p : List ℚ) (rows : List GTRow) (hp : p.length = 24) :
    ((optimal_cost_of rows = 0 →
        (calculate_cost_metrics (some p) rows).cost_difference_percent = none)
      ∧ (optimal_cost_of rows ≠ 0 →
        (calculate_cost_metrics (some p) rows).cost_difference_percent
          = some ((predicted_cost_of p rows - optimal_cost_of rows)
              / optimal_cost_of rows * 100)))
      ∧ ∀ m g : ℚ,
          (g ≠ 0 → cost_difference_percentage m g = some ((m - g) / g * 100))
            ∧ (g = 0 → m ≠ 0 → cost_difference_percentage m g = none)
            ∧ (g = 0 → m = 0 → cost_difference_percentage m g = some 0) := by
  refine ⟨⟨?_, ?_⟩, ?_⟩
  · intro h0
    simp only [calculate_cost_metrics, if_pos hp]
    rw [if_neg (by simp [h0])]
  · intro h0
    simp only [calculate_cost_metrics, if_pos hp]
    rw [if_pos h0]
  · intro m g
    refine ⟨?_, ?_, ?_⟩
    · intro hg
      simp only [cost_difference_percentage, if_pos hg]
    · intro hg hm
      subst hg
      simp only [cost_difference_percentage]
      rw [if_neg (by norm_num), if_pos hm]
    · intro hg hm
      subst hg
      subst hm
      simp only [cost_difference_percentage]
      rw [if_neg (by norm_num), if_neg (by norm_num)]

/-- C8 witness: the amended cost-percent behaviour at the zero candidate and
the zero-cost rows. -/
theorem cost_percent_witness :
    pZeros.length = 24
      ∧ (((optimal_cost_of rows0 = 0 →
            (calculate_cost_metrics (some pZeros) rows0).cost_difference_percent = none)
          ∧ (optimal_cost_of rows0 ≠ 0 →
            (calculate_cost_metrics (some pZeros) rows0).cost_difference_percent
              = some ((predicted_cost_of pZeros rows0 - optimal_cost_of rows0)
                  / optimal_cost_of rows0 * 100)))
          ∧ ∀ m g : ℚ,
              (g ≠ 0 → cost_difference_percentage m g = some ((m - g) / g * 100))
                ∧ (g = 0 → m ≠ 0 → cost_difference_percentage m g = none)
                ∧ (g = 0 → m = 0 → cost_difference_percentage m g = some 0)) :=
  ⟨by simp [pZeros], cost_percent pZeros rows0 (by simp [pZeros])⟩

/-! ## Witnesses for the aggregation claims -/

/-- C6 witness: scenario 0 of a run with an empty list of parsed allocations
is a hard failure. -/
theorem scorer_hard_failure_witness :
    (0 < 1 ∧ ¬ scenarioValid ([] : List (List (ℕ × ℚ))) 0)
      ∧ ((scenario_comparisons (fun _ _ => failure_comp) [] 1).getD 0 failure_comp
            = failure_comp
          ∧ failure_comp.mean_absolute_error = penaltyMAE
          ∧ failure_comp.hourly_matches = 0
          ∧ failure_comp.exact_24h_match = false
          ∧ failure_comp.daily_relative_error = none
          ∧ (calculate_cost_metrics none ([] : List GTRow)).cost_difference = none
          ∧ (calculate_accuracy_metrics none none).hourly_mae = none
          ∧ (calculate_accuracy_metrics none none).exact_hourly_matches = 0) :=
  ⟨⟨Nat.one_pos, by decide⟩,
    scorer_hard_failure (fun _ _ => failure_comp) [] 1 0 Nat.one_pos (by decide) [] none⟩

/-- The ground-truth-metrics function that always reports a hard failure. -/
def failFn : List (ℕ × ℚ) → ℕ → GTComparison := fun _ _ => failure_comp

/-- The aggregate record obtained for a single all-failure scenario. -/
def agg0 : GTAnalysis := ⟨1, 0, 0, 0, 0, 0, none, 10000⟩

theorem process_failFn_example :
    process_ground_truth_comparison failFn [] 1 = some agg0 := by
  have h1 : List.range 1 = [0] := rfl
  simp only [process_ground_truth_comparison, scenario_comparisons, h1,
    List.map_cons, List.map_nil]
  norm_num [compAt, scenarioValid, failFn, failure_comp, penaltyMAE, agg0]

/-- C7 witness: the aggregation contract at a one-scenario run whose single
scenario is a hard failure. -/
theorem aggregation_denominators_witness :
    process_ground_truth_comparison failFn [] 1 = some agg0
      ∧ (agg0.total_scenarios_tested = 1
        ∧ agg0.exact_24h_match_rate
            = (((Finset.range 1).filter fun i =>
                (compAt failFn [] i).exact_24h_match = true).card : ℚ) / 1 * 100
        ∧ agg0.mean_hourly_match_rate
            = ((∑ i in Finset.range 1, (compAt failFn [] i).hourly_matches : ℕ) : ℚ)
                / (1 * 24) * 100
        ∧ (∀ i, ¬ scenarioValid [] i →
              (compAt failFn [] i).hourly_matches = 0
                ∧ (compAt failFn [] i).daily_absolute_error = penaltyMAE)
        ∧ agg0.mean_daily_mae
            = (if ((Finset.range 1).filter fun i =>
                    (compAt failFn [] i).daily_absolute_error < penaltyMAE) = ∅
               then none
               else some ((∑ i in (Finset.range 1).filter fun i =>
                      (compAt failFn [] i).daily_absolute_error < penaltyMAE,
                    (compAt failFn [] i).daily_absolute_error)
                  / (((Finset.range 1).filter fun i =>
                      (compAt failFn [] i).daily_absolute_error < penaltyMAE).card : ℚ)))
        ∧ agg0.mean_success_weighted_mae
            = (∑ i in Finset.range 1,
                (compAt failFn [] i).daily_absolute_error) / 1) :=
  ⟨process_failFn_example,
    aggregation_denominators failFn [] 1 agg0 process_failFn_example⟩

/-- A comparison record for a validly parsed scenario with a genuine daily
absolute error of 20000, above the penalty threshold. -/
def bigComp : GTComparison := ⟨false, 0, 0, 20000, 20000, some 1, 480⟩

/-- The ground-truth-metrics function reporting the error 20000. -/
def bigFn : List (ℕ × ℚ) → ℕ → GTComparison := fun _ _ => bigComp

/-- A single successfully parsed 24-entry candidate allocation. -/
def cands1 : List (List (ℕ × ℚ)) := [(List.range 24).map fun h => (h, 0)]

/-- The aggregate record for the single big-error scenario: excluded from the
success-only mean, counted only in the success-weighted mean. -/
def agg1 : GTAnalysis := ⟨1, 0, 0, 0, 0, 0, none, 20000⟩

theorem cands1_valid : scenarioValid cands1 0 := by
  constructor
  · simp [cands1]
  · simp [cands1]

theorem process_bigFn_example :
    process_ground_truth_comparison bigFn cands1 1 = some agg1 := by
  have h1 : List.range 1 = [0] := rfl
  simp only [process_ground_truth_comparison, scenario_comparisons, h1,
    List.map_cons, List.map_nil, compAt, if_pos cands1_valid]
  norm_num [bigFn, bigComp, penaltyMAE, agg1]

/-- C10 witness: a valid 24-entry candidate whose genuine daily error 20000
exceeds the penalty is excluded from the success-only mean and not counted as
a valid response. -/
theorem aggregation_hard_failure_threshold_witness :
    (process_ground_truth_comparison bigFn cands1 1 = some agg1
      ∧ 0 < 1 ∧ scenarioValid cands1 0
      ∧ penaltyMAE ≤ (bigFn (cands1.getD 0 []) 0).daily_absolute_error)
      ∧ (agg1.scenarios_with_valid_responses
            = ((Finset.range 1).filter fun j =>
                (compAt bigFn cands1 j).daily_absolute_error < penaltyMAE).card
          ∧ 0 ∉ ((Finset.range 1).filter fun j =>
                (compAt bigFn cands1 j).daily_absolute_error < penaltyMAE)
          ∧ agg1.mean_daily_mae
              = (if ((Finset.range 1).filter fun j =>
                      (compAt bigFn cands1 j).daily_absolute_error < penaltyMAE) = ∅
                 then none
                 else some ((∑ j in (Finset.range 1).filter fun j =>
                        (compAt bigFn cands1 j).daily_absolute_error < penaltyMAE,
                      (compAt bigFn cands1 j).daily_absolute_error)
                    / (((Finset.range 1).filter fun j =>
                        (compAt bigFn cands1 j).daily_absolute_error < penaltyMAE).card : ℚ)))) :=
  ⟨⟨process_bigFn_example, Nat.one_pos, cands1_valid, by norm_num [bigFn, bigComp, penaltyMAE]⟩,
    aggregation_hard_failure_threshold bigFn cands1 1 0 agg1 process_bigFn_example
      Nat.one_pos cands1_valid (by norm_num [bigFn, bigComp, penaltyMAE])⟩

end Thesis
